import Mathlib

set_option autoImplicit false

/-!
A verification development for the `grafer` browser glue code: the
encoding utility, the GitHub remote-file-store client, the slug
generator, the version store synchronization logic
(`src/version-manager.js`, `src/github-save.js`) and the two embed
resizer variants (`src/embed.js` and its second deployed copy).

JavaScript strings are modelled as `List Char` (Lean `Char` is exactly
a Unicode scalar value, the code points produced by well-formed JS
strings).  Byte sequences are `List Nat` with every entry `< 256`.
Fallible platform primitives (`atob`, UTF-8 decoding) return `Option`.
-/

/-! ## Encoding Utility (`utf8ToBase64` / `base64ToUtf8`) -/

/-- The UTF-8 encoding of a single Unicode scalar value, by the standard
range analysis.  Models what `TextEncoder().encode` does per code point. -/
def utf8EncodeChar (n : Nat) : List Nat :=
  if n < 0x80 then [n]
  else if n < 0x800 then [0xC0 + n / 64, 0x80 + n % 64]
  else if n < 0x10000 then [0xE0 + n / 4096, 0x80 + n / 64 % 64, 0x80 + n % 64]
  else [0xF0 + n / 262144, 0x80 + n / 4096 % 64, 0x80 + n / 64 % 64, 0x80 + n % 64]

/-- Model of `TextEncoder().encode(str)`: the UTF-8 bytes of the string. -/
def utf8Encode (s : List Char) : List Nat :=
  s.flatMap (fun c => utf8EncodeChar c.toNat)

/-- The continuation of a 2-byte UTF-8 sequence headed by `b0`: one
continuation byte, rejecting overlong forms. -/
def utf8Dec2 (b0 : Nat) : List Nat → Option (Nat × List Nat)
  | b1 :: rest =>
    if 0x80 ≤ b1 ∧ b1 < 0xC0 then
      let n := (b0 - 0xC0) * 64 + (b1 - 0x80)
      if n < 0x80 then none else some (n, rest)
    else none
  | [] => none

/-- The continuation of a 3-byte UTF-8 sequence: two continuation
bytes, rejecting overlong forms and surrogates. -/
def utf8Dec3 (b0 : Nat) : List Nat → Option (Nat × List Nat)
  | b1 :: b2 :: rest =>
    if (0x80 ≤ b1 ∧ b1 < 0xC0) ∧ (0x80 ≤ b2 ∧ b2 < 0xC0) then
      let n := (b0 - 0xE0) * 4096 + (b1 - 0x80) * 64 + (b2 - 0x80)
      if n < 0x800 then none
      else if 0xD800 ≤ n ∧ n < 0xE000 then none
      else some (n, rest)
    else none
  | _ => none

/-- The continuation of a 4-byte UTF-8 sequence: three continuation
bytes, rejecting overlong forms and values beyond U+10FFFF. -/
def utf8Dec4 (b0 : Nat) : List Nat → Option (Nat × List Nat)
  | b1 :: b2 :: b3 :: rest =>
    if (0x80 ≤ b1 ∧ b1 < 0xC0) ∧ (0x80 ≤ b2 ∧ b2 < 0xC0) ∧ (0x80 ≤ b3 ∧ b3 < 0xC0) then
      let n := (b0 - 0xF0) * 262144 + (b1 - 0x80) * 4096 + (b2 - 0x80) * 64 + (b3 - 0x80)
      if n < 0x10000 then none
      else if n < 0x110000 then some (n, rest)
      else none
    else none
  | _ => none

/-- Decode one Unicode scalar value from the byte stream: the first
byte selects the sequence length. -/
def utf8DecodeScalar (b0 : Nat) (rest : List Nat) : Option (Nat × List Nat) :=
  if b0 < 0x80 then some (b0, rest)
  else if b0 < 0xC0 then none
  else if b0 < 0xE0 then utf8Dec2 b0 rest
  else if b0 < 0xF0 then utf8Dec3 b0 rest
  else if b0 < 0xF8 then utf8Dec4 b0 rest
  else none

/-- Decoding one scalar value never lengthens the remaining stream. -/
theorem utf8DecodeScalar_length {b0 n : Nat} {rest rest1 : List Nat}
    (h : utf8DecodeScalar b0 rest = some (n, rest1)) : rest1.length ≤ rest.length := by
  simp only [utf8DecodeScalar] at h
  split at h
  · simp only [Option.some.injEq, Prod.mk.injEq] at h
    obtain ⟨h1, h2⟩ := h
    subst h2
    exact Nat.le_refl _
  · split at h
    · exact Option.noConfusion h
    · split at h
      · rcases rest with _ | ⟨b1, r⟩
        · exact Option.noConfusion h
        · simp only [utf8Dec2] at h
          split at h
          · split at h
            · exact Option.noConfusion h
            · simp only [Option.some.injEq, Prod.mk.injEq] at h
              obtain ⟨h1, h2⟩ := h
              subst h2
              simp only [List.length_cons]
              omega
          · exact Option.noConfusion h
      · split at h
        · rcases rest with _ | ⟨b1, _ | ⟨b2, r⟩⟩
          · exact Option.noConfusion h
          · exact Option.noConfusion h
          · simp only [utf8Dec3] at h
            split at h
            · split at h
              · exact Option.noConfusion h
              · split at h
                · exact Option.noConfusion h
                · simp only [Option.some.injEq, Prod.mk.injEq] at h
                  obtain ⟨h1, h2⟩ := h
                  subst h2
                  simp only [List.length_cons]
                  omega
            · exact Option.noConfusion h
        · split at h
          · rcases rest with _ | ⟨b1, _ | ⟨b2, _ | ⟨b3, r⟩⟩⟩
            · exact Option.noConfusion h
            · exact Option.noConfusion h
            · exact Option.noConfusion h
            · simp only [utf8Dec4] at h
              split at h
              · split at h
                · exact Option.noConfusion h
                · split at h
                  · simp only [Option.some.injEq, Prod.mk.injEq] at h
                    obtain ⟨h1, h2⟩ := h
                    subst h2
                    simp only [List.length_cons]
                    omega
                  · exact Option.noConfusion h
              · exact Option.noConfusion h
          · exact Option.noConfusion h

/-- Strict UTF-8 decoding of a byte sequence, rejecting truncated
sequences, bad continuation bytes, overlong forms, surrogates and
out-of-range values.  Models `TextDecoder().decode` on the well-formed
byte sequences this code ever feeds it. -/
def utf8Decode (l : List Nat) : Option (List Char) :=
  match l with
  | [] => some []
  | b0 :: rest =>
    match h : utf8DecodeScalar b0 rest with
    | some (n, rest1) => (utf8Decode rest1).map (fun cs => Char.ofNat n :: cs)
    | none => none
termination_by l.length
decreasing_by
  have h1 := utf8DecodeScalar_length h
  simp only [List.length_cons]
  omega

/-- The base64 alphabet character for a sextet, as `btoa` uses it. -/
def b64Char (n : Nat) : Char :=
  if n < 26 then Char.ofNat (65 + n)
  else if n < 52 then Char.ofNat (97 + (n - 26))
  else if n < 62 then Char.ofNat (48 + (n - 52))
  else if n = 62 then '+'
  else '/'

/-- The sextet value of a base64 alphabet character, `none` for any
character outside the alphabet (in particular for `=`). -/
def b64Val (c : Char) : Option Nat :=
  if 65 ≤ c.toNat ∧ c.toNat ≤ 90 then some (c.toNat - 65)
  else if 97 ≤ c.toNat ∧ c.toNat ≤ 122 then some (c.toNat - 97 + 26)
  else if 48 ≤ c.toNat ∧ c.toNat ≤ 57 then some (c.toNat - 48 + 52)
  else if c = '+' then some 62
  else if c = '/' then some 63
  else none

/-- Model of `btoa`: base64 of a byte sequence (the "binary string" whose char
codes are the bytes), processed in three-byte blocks with `=` padding. -/
def btoa : List Nat → List Char
  | [] => []
  | [a] => [b64Char (a / 4), b64Char (a % 4 * 16), '=', '=']
  | [a, b] => [b64Char (a / 4), b64Char (a % 4 * 16 + b / 16), b64Char (b % 16 * 4), '=']
  | a :: b :: c :: rest =>
    b64Char (a / 4) :: b64Char (a % 4 * 16 + b / 16) :: b64Char (b % 16 * 4 + c / 64) ::
      b64Char (c % 64) :: btoa rest

/-- Model of `atob` on canonically padded base64 input: four characters decode to
three bytes, with the `=`-padded final group yielding one or two bytes;
anything else is rejected (`atob` throws on invalid input). -/
def atob : List Char → Option (List Nat)
  | [] => some []
  | c0 :: c1 :: c2 :: c3 :: rest =>
    match b64Val c0, b64Val c1 with
    | some s0, some s1 =>
      if c2 = '=' then
        if c3 = '=' ∧ rest = [] then some [s0 * 4 + s1 / 16] else none
      else
        match b64Val c2 with
        | some s2 =>
          if c3 = '=' then
            if rest = [] then some [s0 * 4 + s1 / 16, s1 % 16 * 16 + s2 / 4] else none
          else
            match b64Val c3 with
            | some s3 =>
              (atob rest).map (fun bs => (s0 * 4 + s1 / 16) :: (s1 % 16 * 16 + s2 / 4) ::
                (s2 % 4 * 64 + s3) :: bs)
            | none => none
        | none => none
    | _, _ => none
  | _ => none

/-- The function `utf8ToBase64` from `version-manager.js` (the identical copy in
`github-save.js` is shared): UTF-8 encode, then `btoa` the bytes. -/
def utf8ToBase64 (s : List Char) : List Char :=
  btoa (utf8Encode s)

/-- The function `base64ToUtf8` from `version-manager.js`: strip newlines (GitHub
wraps base64 bodies), `atob`, then UTF-8 decode the bytes. -/
def base64ToUtf8 (b : List Char) : Option (List Char) :=
  (atob (b.filter (fun c => c ≠ '\n'))).bind utf8Decode

/-! ## Slug Generator (`slugify` / `uniqueSlug`) -/

/-- Model of `String.prototype.toLowerCase` on one character, restricted to the
ASCII and Latin-1 letters (which covers every character `slugify`
treats specially, in particular `Æ`, `Ø`, `Å`). -/
def jsToLower (c : Char) : Char :=
  if 65 ≤ c.toNat ∧ c.toNat ≤ 90 then Char.ofNat (c.toNat + 32)
  else if 0xC0 ≤ c.toNat ∧ c.toNat ≤ 0xDE ∧ c.toNat ≠ 0xD7 then Char.ofNat (c.toNat + 32)
  else c

/-- Model of `str.replace(/x/g, repl)` for a single-character pattern. -/
def replaceChar (target : Char) (repl : List Char) (s : List Char) : List Char :=
  s.flatMap (fun c => if c = target then repl else [c])

/-- Membership in `[a-z0-9]`. -/
def isLowerAlnum (c : Char) : Bool :=
  (97 ≤ c.toNat && c.toNat ≤ 122) || (48 ≤ c.toNat && c.toNat ≤ 57)

/-- Global replacement of every maximal run of characters satisfying `p`
by a single hyphen.  `inRun` records whether the previous character was
part of a run (in which case the hyphen was already emitted). -/
def collapseRunsAux (p : Char → Bool) (inRun : Bool) : List Char → List Char
  | [] => []
  | c :: rest =>
    if p c then
      if inRun then collapseRunsAux p true rest
      else '-' :: collapseRunsAux p true rest
    else c :: collapseRunsAux p false rest

/-- The replace step with global pattern "[^a-z0-9]+": every maximal run of characters
outside `[a-z0-9]` becomes a single hyphen. -/
def collapseNonAlnum (s : List Char) : List Char :=
  collapseRunsAux (fun c => !isLowerAlnum c) false s

/-- The `replace` step with global pattern "-+": collapse hyphen runs. -/
def collapseHyphens (s : List Char) : List Char :=
  collapseRunsAux (fun c => c = '-') false s

/-- The replace step with the anchored global pattern removing boundary hyphens: remove one leading and one trailing
hyphen. -/
def trimHyphens (s : List Char) : List Char :=
  let s1 := if s.head? = some '-' then s.tail else s
  if s1.getLast? = some '-' then s1.dropLast else s1

/-- The function `slugify` from `version-manager.js`: lowercase, transliterate
`æ ø å`, collapse non-alphanumeric runs to hyphens, collapse hyphen
runs, trim boundary hyphens. -/
def slugify (name : List Char) : List Char :=
  trimHyphens (collapseHyphens (collapseNonAlnum
    (replaceChar 'å' ['a'] (replaceChar 'ø' ['o'] (replaceChar 'æ' ['a', 'e']
      (name.map jsToLower))))))

/-- The decimal digit string of a natural number, as JS template
interpolation `${i}` renders a non-negative integer. -/
def natDigits (n : Nat) : List Char :=
  if h : n < 10 then [Char.ofNat (48 + n)]
  else natDigits (n / 10) ++ [Char.ofNat (48 + n % 10)]
decreasing_by
  exact Nat.div_lt_self (by omega) (by omega)

/-- The candidate <code>`${slug}-${i}`</code> tried by `uniqueSlug`. -/
def mkSlug (slug : List Char) (i : Nat) : List Char :=
  slug ++ '-' :: natDigits i

/-- A number is smaller than ten to the number of its decimal digits. -/
theorem lt_pow_length_natDigits (n : Nat) : n < 10 ^ (natDigits n).length := by
  induction n using Nat.strong_induction_on with
  | _ n ih =>
    rw [natDigits]
    split
    · next h => simpa using by omega
    · next h =>
      have ih1 := ih (n / 10) (Nat.div_lt_self (by omega) (by omega))
      have hm : n % 10 < 10 := Nat.mod_lt _ (by omega)
      have hd : 10 * (n / 10) + n % 10 = n := Nat.div_add_mod n 10
      simp only [List.length_append, List.length_cons, List.length_nil, Nat.zero_add]
      rw [Nat.pow_succ]
      omega

/-- Every member of a list of strings is no longer than the running
maximum of all their lengths. -/
theorem length_le_maxLen {s : List Char} {l : List (List Char)} (h : s ∈ l) :
    s.length ≤ (l.map List.length).foldr max 0 := by
  induction l with
  | nil => cases h
  | cons a t ih =>
    rcases List.mem_cons.mp h with rfl | h1
    · exact le_max_left _ _
    · exact le_trans (ih h1) (le_max_right _ _)

/-- The search loop of `uniqueSlug`: starting from `i`, find the first
`i` with <code>`${slug}-${i}`</code> not among `existingIds`.  It
terminates because a candidate with more decimal digits than the
longest existing id cannot collide. -/
def uniqueSlugAux (slug : List Char) (existingIds : List (List Char)) (i : Nat) : List Char :=
  if mkSlug slug i ∈ existingIds then uniqueSlugAux slug existingIds (i + 1)
  else mkSlug slug i
termination_by 10 ^ ((existingIds.map List.length).foldr max 0) - i
decreasing_by
  rename_i h
  have h1 : (mkSlug slug i).length ≤ (existingIds.map List.length).foldr max 0 :=
    length_le_maxLen h
  have h2 : i < 10 ^ (natDigits i).length := lt_pow_length_natDigits i
  have h3 : (natDigits i).length ≤ (mkSlug slug i).length := by
    simp only [mkSlug, List.length_append, List.length_cons]
    omega
  have h4 : 10 ^ (natDigits i).length ≤ 10 ^ ((existingIds.map List.length).foldr max 0) :=
    Nat.pow_le_pow_right (by omega) (le_trans h3 h1)
  omega

/-- The function `uniqueSlug` from `version-manager.js`: return `slug` when free,
otherwise the first free <code>`${slug}-${i}`</code> for `i = 2, 3, …`. -/
def uniqueSlug (slug : List Char) (existingIds : List (List Char)) : List Char :=
  if slug ∈ existingIds then uniqueSlugAux slug existingIds 2 else slug

/-! ## Remote File Store Client and Version Store -/

/-- The errors thrown by the client code, one constructor per `throw`
site: the generic fetch failure carrying the HTTP status (message
"Kunne ikke hente fil: {status}"), the invalid/expired-token error of a
write (status 401), the edited-by-others conflict (status 409), the
stale-file error (status 422), the fallback API error carrying exactly
the thrown message (the response body's message when that is non-empty,
otherwise "GitHub API feil: {status}" — the status is dropped whenever
the body supplies a message), the missing-token setup error, and the
unknown-version error of `updateVersion`. -/
inductive VMError where
  | noToken
  | fetchFailed (status : Nat)
  | invalidToken
  | conflictEdited
  | staleFile
  | apiError (msg : List Char)
  | versionNotFound (id : List Char)
deriving DecidableEq

/-- A version record, the value stored under an id in `versions.json`.
ISO-8601 timestamps are ordered exactly as their numeric `Date` values,
so they are modelled as naturals; `updatedAt` may be absent in stored
data.  The chart configuration is an arbitrary JSON value the store
never inspects, hence a type parameter. -/
structure VersionRecord (Cfg : Type) where
  name : List Char
  id : List Char
  createdAt : Nat
  updatedAt : Option Nat
  config : Cfg
deriving DecidableEq

/-- The response to the GET of a store file, as seen by
`getFileFromGitHub`: HTTP status, `ok` flag, the file's `sha`, and the
`versions` mapping parsed from the decoded JSON body (the JSON and
base64 marshalling is handled by the encoding layer). -/
structure GetResp (Cfg : Type) where
  status : Nat
  ok : Bool
  sha : List Char
  fileVersions : List (List Char × VersionRecord Cfg)
deriving DecidableEq

/-- The function `getFileFromGitHub` from `version-manager.js`: 404 means the file is
absent (`null`, not an error); any other non-ok response throws the
fetch error carrying the status; otherwise the sha and content are
returned. -/
def getFileFromGitHub {Cfg : Type} (r : GetResp Cfg) :
    Except VMError (Option (List Char × List (List Char × VersionRecord Cfg))) :=
  if r.status = 404 then .ok none
  else if !r.ok then .error (.fetchFailed r.status)
  else .ok (some (r.sha, r.fileVersions))

/-- The response to the GET issued by `getFileSha` in `github-save.js`. -/
structure ShaGetResp where
  status : Nat
  ok : Bool
  sha : List Char
deriving DecidableEq

/-- The function `getFileSha` from `github-save.js`: same classification as
`getFileFromGitHub`, returning only the sha. -/
def getFileSha (r : ShaGetResp) : Except VMError (Option (List Char)) :=
  if r.status = 404 then .ok none
  else if !r.ok then .error (.fetchFailed r.status)
  else .ok (some r.sha)

/-- The JSON body of a contents-API PUT: commit message, base64 content,
branch, and the optional expected version tag (`sha` is set only when a
tag was passed). -/
structure PutBody where
  message : List Char
  content : List Char
  branch : List Char
  sha : Option (List Char)
deriving DecidableEq

/-- The request body built by `saveFileToGitHub` / `saveToGitHub`:
`body.sha` is present exactly when the caller supplied a version tag. -/
def mkPutBody (content message : List Char) (sha : Option (List Char)) : PutBody :=
  { message := message, content := utf8ToBase64 content, branch := "main".toList, sha := sha }

/-- The response to a contents-API PUT: status, `ok` flag, the new sha,
the commit html url when present, and the body's `message` field used
by the fallback error. -/
structure PutResp where
  status : Nat
  ok : Bool
  newSha : List Char
  commitUrl : Option (List Char)
  errMessage : Option (List Char)
deriving DecidableEq

/-- The message of the fallback throw, the JS expression
<code>err.message || `GitHub API feil: ${resp.status}`</code>: the
body's message when present and non-empty (`||` treats the empty string
as falsy), otherwise the generic message carrying the status. -/
def fallbackMsg (errMessage : Option (List Char)) (status : Nat) : List Char :=
  match errMessage with
  | some m => if m = [] then "GitHub API feil: ".toList ++ natDigits status else m
  | none => "GitHub API feil: ".toList ++ natDigits status

/-- The response handling of `saveFileToGitHub` in `version-manager.js`:
non-ok responses throw the invalid-token error on 401, the
edited-by-others conflict on 409, the stale-file error on 422 and the
fallback API error (the body message, or the generic message with the
status when the body has none) otherwise; ok responses return the
parsed body. -/
def saveFileToGitHub (r : PutResp) : Except VMError (List Char) :=
  if !r.ok then
    if r.status = 401 then .error .invalidToken
    else if r.status = 409 then .error .conflictEdited
    else if r.status = 422 then .error .staleFile
    else .error (.apiError (fallbackMsg r.errMessage r.status))
  else .ok r.newSha

/-- The result object of `saveToGitHub` in `github-save.js`. -/
structure SaveResult where
  success : Bool
  commitUrl : List Char
  message : List Char
deriving DecidableEq

/-- The function `saveToGitHub` from `github-save.js`: fetch the current sha (404 is
"absent", so the PUT creates the file), then PUT with the same response
classification as `saveFileToGitHub`. -/
def saveToGitHub (shaResp : ShaGetResp) (putR : PutResp) : Except VMError SaveResult :=
  match getFileSha shaResp with
  | .error e => .error e
  | .ok _ =>
    if !putR.ok then
      if putR.status = 401 then .error .invalidToken
      else if putR.status = 409 then .error .conflictEdited
      else if putR.status = 422 then .error .staleFile
      else .error (.apiError (fallbackMsg putR.errMessage putR.status))
    else
      .ok { success := true, commitUrl := putR.commitUrl.getD [],
            message := "Lagret til GitHub!".toList }

/-- Modelled from the spec: the remote content API itself is not part of
this repository; spec sections 3 ("Version Tag") and 6 describe it as a
black-box conditional-write store: a PUT without a version tag creates
the file; a PUT whose tag equals the file's current tag replaces it; a
PUT whose tag no longer matches (the file changed since the tag was
obtained) is rejected with status 409; a PUT against a stale view (tag
presence disagreeing with the file's existence) is rejected with 422;
an invalid credential is rejected with 401. -/
inductive RemotePutOutcome where
  | created (content : List Char)
  | replaced (content : List Char)
  | rejected (status : Nat)
deriving DecidableEq

/-- Modelled from the spec: see `RemotePutOutcome`. -/
def remotePut (tokenValid : Bool) (shaArg : Option (List Char))
    (current : Option (List Char × List Char)) (newContent : List Char) : RemotePutOutcome :=
  if !tokenValid then .rejected 401
  else
    match shaArg, current with
    | none, none => .created newContent
    | none, some _ => .rejected 422
    | some t, some (t0, _) => if t = t0 then .replaced newContent else .rejected 409
    | some _, none => .rejected 422

/-- The observable steps of a mutating Version Store operation, in the
order they are performed: the successful pre-mutation fetch of the
remote store file (version tag and mapping), a failed fetch, the
assignment of the new in-memory mapping, the conditional write (the
version tag sent and the mapping serialized), and the local cache
update. -/
inductive VMEvent (Cfg : Type) where
  | fetchLatest (sha : Option (List Char)) (vers : List (List Char × VersionRecord Cfg))
  | fetchFail (e : VMError)
  | mutate (vers : List (List Char × VersionRecord Cfg))
  | put (sha : Option (List Char)) (vers : List (List Char × VersionRecord Cfg))
  | cacheWrite (vers : List (List Char × VersionRecord Cfg))
deriving DecidableEq

/-- The module-level mutable state of `version-manager.js`: the
in-memory `_versions` mapping (an insertion-ordered association list,
as JS object string keys are), the current `_sha` of the store file,
and the per-chart-type `localStorage` cache. -/
structure VMState (Cfg : Type) where
  versions : List (List Char × VersionRecord Cfg)
  sha : Option (List Char)
  cache : Option (List (List Char × VersionRecord Cfg))
deriving DecidableEq

/-- The ambient world of one mutating operation: the stored token
(empty when none is set), the response the GET will receive, the
response the PUT will receive, the clock, and the chart configuration
`config.getCurrentConfig()` returns. -/
structure VMEnv (Cfg : Type) where
  token : List Char
  getResp : GetResp Cfg
  putResp : PutResp
  now : Nat
  currentConfig : Cfg
deriving DecidableEq

/-- The lookup `_versions[id]`. -/
def lookupId {Cfg : Type} (m : List (List Char × VersionRecord Cfg)) (id : List Char) :
    Option (VersionRecord Cfg) :=
  (m.find? (fun p => p.1 = id)).map (fun p => p.2)

/-- The assignment `_versions[id] = v`: JS object assignment keeps an existing key in
place and appends a new key. -/
def setId {Cfg : Type} (m : List (List Char × VersionRecord Cfg)) (id : List Char)
    (v : VersionRecord Cfg) : List (List Char × VersionRecord Cfg) :=
  if m.any (fun p => p.1 = id) then m.map (fun p => if p.1 = id then (id, v) else p)
  else m ++ [(id, v)]

/-- The statement `delete _versions[id]`. -/
def removeId {Cfg : Type} (m : List (List Char × VersionRecord Cfg)) (id : List Char) :
    List (List Char × VersionRecord Cfg) :=
  m.filter (fun p => p.1 ≠ id)

/-- The `_versions` mapping `_getLatestFromGitHub` installs from a
successful fetch (`{}` when the file is absent). -/
def fetchedVersions {Cfg : Type}
    (f : Option (List Char × List (List Char × VersionRecord Cfg))) :
    List (List Char × VersionRecord Cfg) :=
  match f with
  | some (_, vs) => vs
  | none => []

/-- The `_sha` value `_getLatestFromGitHub` installs from a successful
fetch (`null` when the file is absent). -/
def fetchedSha {Cfg : Type}
    (f : Option (List Char × List (List Char × VersionRecord Cfg))) : Option (List Char) :=
  f.map (fun p => p.1)

/-- The full outcome of one mutating operation: the trace of observable
steps, the returned value or thrown error, and the module state after
the call. -/
structure OpResult (Cfg : Type) (α : Type) where
  trace : List (VMEvent Cfg)
  outcome : Except VMError α
  state : VMState Cfg

/-- The operation `VersionManager.saveVersion(name)`: check the token, re-fetch the
latest remote state, insert a fresh record under a unique slug, write
back with the version tag just fetched, then update the cache.  A
failed write leaves the already-mutated in-memory mapping in place but
skips the cache update. -/
def saveVersion {Cfg : Type} (env : VMEnv Cfg) (st : VMState Cfg) (name : List Char) :
    OpResult Cfg (List Char) :=
  if env.token = [] then ⟨[], .error .noToken, st⟩
  else
    match getFileFromGitHub env.getResp with
    | .error e => ⟨[.fetchFail e], .error e, st⟩
    | .ok f =>
      let vs := fetchedVersions f
      let sha := fetchedSha f
      let slug := uniqueSlug (slugify name) (vs.map (fun p => p.1))
      let newRecord : VersionRecord Cfg :=
        { name := name, id := slug, createdAt := env.now, updatedAt := some env.now,
          config := env.currentConfig }
      let vs1 := setId vs slug newRecord
      let ev := [VMEvent.fetchLatest sha vs, VMEvent.mutate vs1, VMEvent.put sha vs1]
      match saveFileToGitHub env.putResp with
      | .error e => ⟨ev, .error e, { versions := vs1, sha := sha, cache := st.cache }⟩
      | .ok _ =>
        ⟨ev ++ [VMEvent.cacheWrite vs1], .ok slug,
          { versions := vs1, sha := sha, cache := some vs1 }⟩

/-- The operation `VersionManager.updateVersion(id)`: check the token, re-fetch the
latest remote state, fail when `id` is unknown, overwrite the record's
config and `updatedAt`, write back with the fetched tag, update the
cache. -/
def updateVersion {Cfg : Type} (env : VMEnv Cfg) (st : VMState Cfg) (id : List Char) :
    OpResult Cfg Unit :=
  if env.token = [] then ⟨[], .error .noToken, st⟩
  else
    match getFileFromGitHub env.getResp with
    | .error e => ⟨[.fetchFail e], .error e, st⟩
    | .ok f =>
      let vs := fetchedVersions f
      let sha := fetchedSha f
      match lookupId vs id with
      | none =>
        ⟨[.fetchLatest sha vs], .error (.versionNotFound id),
          { versions := vs, sha := sha, cache := st.cache }⟩
      | some v =>
        let v1 := { v with config := env.currentConfig, updatedAt := some env.now }
        let vs1 := setId vs id v1
        let ev := [VMEvent.fetchLatest sha vs, VMEvent.mutate vs1, VMEvent.put sha vs1]
        match saveFileToGitHub env.putResp with
        | .error e => ⟨ev, .error e, { versions := vs1, sha := sha, cache := st.cache }⟩
        | .ok _ =>
          ⟨ev ++ [VMEvent.cacheWrite vs1], .ok (),
            { versions := vs1, sha := sha, cache := some vs1 }⟩

/-- The operation `VersionManager.deleteVersion(id)`: check the token, re-fetch the
latest remote state, remove `id` (silently a no-op when absent), write
back with the fetched tag, update the cache. -/
def deleteVersion {Cfg : Type} (env : VMEnv Cfg) (st : VMState Cfg) (id : List Char) :
    OpResult Cfg Unit :=
  if env.token = [] then ⟨[], .error .noToken, st⟩
  else
    match getFileFromGitHub env.getResp with
    | .error e => ⟨[.fetchFail e], .error e, st⟩
    | .ok f =>
      let vs := fetchedVersions f
      let sha := fetchedSha f
      let vs1 := removeId vs id
      let ev := [VMEvent.fetchLatest sha vs, VMEvent.mutate vs1, VMEvent.put sha vs1]
      match saveFileToGitHub env.putResp with
      | .error e => ⟨ev, .error e, { versions := vs1, sha := sha, cache := st.cache }⟩
      | .ok _ =>
        ⟨ev ++ [VMEvent.cacheWrite vs1], .ok (),
          { versions := vs1, sha := sha, cache := some vs1 }⟩

/-- The sort key of `_renderList`: `new Date(v.updatedAt || v.createdAt)`. -/
def recencyKey {Cfg : Type} (v : VersionRecord Cfg) : Nat :=
  v.updatedAt.getD v.createdAt

/-- The recency listing built by `_renderList`: all records of the
mapping, sorted by `updatedAt` (falling back to `createdAt`)
descending.  `Array.prototype.sort` with the comparator
`(a, b) => keyOf(b) - keyOf(a)` is a stable descending sort, modelled
by the stable `List.mergeSort`. -/
def listSortedByRecency {Cfg : Type} (m : List (List Char × VersionRecord Cfg)) :
    List (VersionRecord Cfg) :=
  (m.map (fun p => p.2)).mergeSort (fun a b => recencyKey b ≤ recencyKey a)

/-! ## Embed Resizer (`embed.js` and its second deployed variant) -/

/-- An embed iframe as the resizer sees it: the identity of its
`contentWindow` and its current CSS pixel height. -/
structure EmbedIframe where
  win : Nat
  height : Nat
deriving DecidableEq

/-- The `data` payload of a cross-window message. -/
structure MsgData where
  tag : List Char
  height : Nat
deriving DecidableEq

/-- A message event as delivered to the `message` listener: the
identity of the sending window and the possibly-null payload. -/
structure MsgEvent where
  source : Nat
  data : Option MsgData
deriving DecidableEq

/-- The loader in `embed.js` creates each iframe with initial height 600px. -/
def embedMkIframe (w : Nat) : EmbedIframe :=
  { win := w, height := 600 }

/-- The `message` listener of `embed.js`: on a `grafer-resize` message,
every iframe whose content window is the message source gets the
reported height plus a 5px buffer; all other iframes and all other
messages are left alone. -/
def embedHandleMessage (e : MsgEvent) (frames : List EmbedIframe) : List EmbedIframe :=
  match e.data with
  | some d =>
    if d.tag = "grafer-resize".toList then
      frames.map (fun f => if f.win = e.source then { f with height := d.height + 5 } else f)
    else frames
  | none => frames

/-- The second deployed resizer copy creates each iframe with initial
height 400px. -/
def embedVariantMkIframe (w : Nat) : EmbedIframe :=
  { win := w, height := 400 }

/-- The `message` listener of the second resizer copy: identical but
with no buffer added to the reported height. -/
def embedVariantHandleMessage (e : MsgEvent) (frames : List EmbedIframe) : List EmbedIframe :=
  match e.data with
  | some d =>
    if d.tag = "grafer-resize".toList then
      frames.map (fun f => if f.win = e.source then { f with height := d.height } else f)
    else frames
  | none => frames

/-! ## Theorems -/

/-- C10: if no credential is stored (the token read from local storage
is empty), every mutating operation throws the token-setup error before
performing any network read or write (the event trace is empty), and
the in-memory mapping, sha and local cache are exactly as before. -/
theorem noToken_leaves_state_unchanged {Cfg : Type} (env : VMEnv Cfg) (st : VMState Cfg)
    (name id1 id2 : List Char) (h : env.token = []) :
    saveVersion env st name = ⟨[], .error .noToken, st⟩ ∧
    updateVersion env st id1 = ⟨[], .error .noToken, st⟩ ∧
    deleteVersion env st id2 = ⟨[], .error .noToken, st⟩ := by
  refine ⟨?_, ?_, ?_⟩ <;> simp [saveVersion, updateVersion, deleteVersion, h]

/-- Witness for C10 at a concrete environment with an empty token. -/
theorem noToken_leaves_state_unchanged_witness :
    saveVersion ⟨[], ⟨200, true, [], []⟩, ⟨200, true, [], none, none⟩, 0, ()⟩
        ⟨[], none, none⟩ "x".toList =
      ⟨[], .error .noToken, ⟨[], none, none⟩⟩ :=
  (noToken_leaves_state_unchanged ⟨[], ⟨200, true, [], []⟩, ⟨200, true, [], none, none⟩, 0, ()⟩
    ⟨[], none, none⟩ "x".toList [] [] rfl).1

/-- C3 (amended): for a read of the remote file store, a 404 response
yields the absent result (not an error), and any other non-success
response — including a 401 from an invalid or expired credential —
yields the generic fetch error carrying the status code; reads raise no
distinct auth error.  This holds for both `getFileFromGitHub` and
`getFileSha`. -/
theorem getFile_classification {Cfg : Type} (r : GetResp Cfg) (rs : ShaGetResp) :
    (r.status = 404 → getFileFromGitHub r = .ok none) ∧
    (r.status ≠ 404 → r.ok = false → getFileFromGitHub r = .error (.fetchFailed r.status)) ∧
    (r.status ≠ 404 → r.ok = true → getFileFromGitHub r = .ok (some (r.sha, r.fileVersions))) ∧
    (rs.status = 404 → getFileSha rs = .ok none) ∧
    (rs.status ≠ 404 → rs.ok = false → getFileSha rs = .error (.fetchFailed rs.status)) ∧
    (rs.status ≠ 404 → rs.ok = true → getFileSha rs = .ok (some rs.sha)) := by
  refine ⟨fun h1 => ?_, fun h1 h2 => ?_, fun h1 h2 => ?_,
    fun h1 => ?_, fun h1 h2 => ?_, fun h1 h2 => ?_⟩ <;>
    simp [getFileFromGitHub, getFileSha, h1, *]

/-- Witness for the amended C3 at concrete responses. -/
theorem getFile_classification_witness :
    @getFileFromGitHub Unit ⟨404, false, [], []⟩ = .ok none ∧
    getFileSha ⟨500, false, []⟩ = .error (.fetchFailed 500) := by
  refine ⟨(getFile_classification ⟨404, false, [], []⟩ ⟨500, false, []⟩).1 rfl,
    (@getFile_classification Unit ⟨404, false, [], []⟩ ⟨500, false, []⟩).2.2.2.2.1 ?_ rfl⟩
  decide

/-- C3 counterexample: the claim that a read maps an invalid credential
(status 401) to a distinct auth error is false: `getFileFromGitHub` and
`getFileSha` classify 401 exactly like any other non-success status,
as the generic fetch error carrying the status code, which is not the
auth error the codebase raises elsewhere (`invalidToken`, message
"Ugyldig eller utløpt token"). -/
theorem getFile_401_counterexample :
    @getFileFromGitHub Unit ⟨401, false, [], []⟩ = .error (.fetchFailed 401) ∧
    getFileSha ⟨401, false, []⟩ = .error (.fetchFailed 401) ∧
    VMError.fetchFailed 401 ≠ VMError.invalidToken ∧
    VMError.fetchFailed 401 = VMError.fetchFailed 401 := by
  refine ⟨by simp [getFileFromGitHub], by simp [getFileSha], by simp, rfl⟩

/-- C2 counterexample: the claim that every other non-success write
response fails with an error carrying the status code is false: the
fallback throw is <code>err.message || `GitHub API feil: ${status}`</code>,
so whenever the response body supplies a message the thrown error is
that message alone and drops the status.  Concretely, a 500 and a 502
response with body message "Bad credentials" produce the *identical*
error — in both `saveFileToGitHub` and `saveToGitHub` — which an error
carrying the status code could not do. -/
theorem write_fallback_drops_status_counterexample :
    saveFileToGitHub ⟨500, false, [], none, some "Bad credentials".toList⟩ =
      .error (.apiError "Bad credentials".toList) ∧
    saveFileToGitHub ⟨500, false, [], none, some "Bad credentials".toList⟩ =
      saveFileToGitHub ⟨502, false, [], none, some "Bad credentials".toList⟩ ∧
    saveToGitHub ⟨200, true, []⟩ ⟨500, false, [], none, some "Bad credentials".toList⟩ =
      saveToGitHub ⟨200, true, []⟩ ⟨502, false, [], none, some "Bad credentials".toList⟩ := by
  refine ⟨?_, ?_, ?_⟩ <;> rfl

/-- C2 (amended): for every write to the remote file store: the request
body omits the version tag exactly when the caller supplies none, and
(by the spec's model of the black-box API) such a write creates the
file; a write whose tag no longer matches the remote file — the file
changed since the tag was obtained — is rejected (409) and classified
as the edited-by-others conflict, distinct from the stale-view error
(422) and from the auth error; an invalid credential (401) yields the
auth error; any other non-success response yields the API error whose
message is the response body's message when that is non-empty, and
otherwise the fallback message carrying the status code.  `saveToGitHub`
in `github-save.js` classifies identically, fallback included. -/
theorem write_classification (content message t t0 c nc : List Char) (r : PutResp)
    (sr : ShaGetResp) :
    (mkPutBody content message none).sha = none ∧
    remotePut true none none nc = .created nc ∧
    (t ≠ t0 → remotePut true (some t) (some (t0, c)) nc = .rejected 409) ∧
    remotePut false (some t) (some (t0, c)) nc = .rejected 401 ∧
    (r.ok = false → r.status = 401 → saveFileToGitHub r = .error .invalidToken) ∧
    (r.ok = false → r.status = 409 → saveFileToGitHub r = .error .conflictEdited) ∧
    (r.ok = false → r.status = 422 → saveFileToGitHub r = .error .staleFile) ∧
    (r.ok = false → r.status ≠ 401 → r.status ≠ 409 → r.status ≠ 422 →
      r.errMessage = none →
      saveFileToGitHub r =
        .error (.apiError ("GitHub API feil: ".toList ++ natDigits r.status))) ∧
    (∀ m : List Char, r.ok = false → r.status ≠ 401 → r.status ≠ 409 → r.status ≠ 422 →
      r.errMessage = some m → m ≠ [] →
      saveFileToGitHub r = .error (.apiError m)) ∧
    (VMError.conflictEdited ≠ VMError.staleFile ∧
      VMError.conflictEdited ≠ VMError.invalidToken ∧
      VMError.staleFile ≠ VMError.invalidToken) ∧
    (sr.status ≠ 404 → sr.ok = true → r.ok = false → r.status = 409 →
      saveToGitHub sr r = .error .conflictEdited) ∧
    (sr.status ≠ 404 → sr.ok = true → r.ok = false → r.status = 422 →
      saveToGitHub sr r = .error .staleFile) ∧
    (sr.status ≠ 404 → sr.ok = true → r.ok = false → r.status = 401 →
      saveToGitHub sr r = .error .invalidToken) ∧
    (sr.status ≠ 404 → sr.ok = true → r.ok = false → r.status ≠ 401 → r.status ≠ 409 →
      r.status ≠ 422 → r.errMessage = none →
      saveToGitHub sr r =
        .error (.apiError ("GitHub API feil: ".toList ++ natDigits r.status))) ∧
    (∀ m : List Char, sr.status ≠ 404 → sr.ok = true → r.ok = false → r.status ≠ 401 →
      r.status ≠ 409 → r.status ≠ 422 → r.errMessage = some m → m ≠ [] →
      saveToGitHub sr r = .error (.apiError m)) := by
  refine ⟨rfl, rfl, fun h1 => ?_, rfl, fun h1 h2 => ?_, fun h1 h2 => ?_, fun h1 h2 => ?_,
    fun h1 h2 h3 h4 h5 => ?_, fun m h1 h2 h3 h4 h5 h6 => ?_, by simp,
    fun h1 h2 h3 h4 => ?_, fun h1 h2 h3 h4 => ?_, fun h1 h2 h3 h4 => ?_,
    fun h1 h2 h3 h4 h5 h6 h7 => ?_, fun m h1 h2 h3 h4 h5 h6 h7 h8 => ?_⟩ <;>
    simp [remotePut, saveFileToGitHub, saveToGitHub, getFileSha, fallbackMsg, *]

/-- Witness for the amended C2: a concrete 409 write conflict, a
concrete mismatched-tag rejection, and a concrete fallback error that
keeps the body's message. -/
theorem write_classification_witness :
    saveFileToGitHub ⟨409, false, [], none, none⟩ = .error .conflictEdited ∧
    remotePut true (some "a".toList) (some ("b".toList, [])) [] = .rejected 409 ∧
    saveFileToGitHub ⟨500, false, [], none, some "Validation Failed".toList⟩ =
      .error (.apiError "Validation Failed".toList) :=
  ⟨(write_classification [] [] "a".toList "b".toList [] [] ⟨409, false, [], none, none⟩
      ⟨200, true, []⟩).2.2.2.2.2.1 rfl rfl,
    (write_classification [] [] "a".toList "b".toList [] [] ⟨409, false, [], none, none⟩
      ⟨200, true, []⟩).2.2.1 (by decide),
    (write_classification [] [] "a".toList "b".toList [] []
      ⟨500, false, [], none, some "Validation Failed".toList⟩
      ⟨200, true, []⟩).2.2.2.2.2.2.2.2.1 "Validation Failed".toList rfl (by decide)
      (by decide) (by decide) rfl (by decide)⟩

/-- Removing an id that is not in the mapping changes nothing. -/
theorem removeId_of_lookup_none {Cfg : Type} (m : List (List Char × VersionRecord Cfg))
    (id : List Char) (h : lookupId m id = none) : removeId m id = m := by
  simp only [lookupId, Option.map_eq_none'] at h
  have h1 : ∀ p ∈ m, ¬(p.1 = id) := by
    intro p hp
    have := List.find?_eq_none.mp h p hp
    simpa using this
  simp only [removeId]
  exact List.filter_eq_self.mpr (fun p hp => by simpa using h1 p hp)

/-- After removal, the id is no longer in the mapping. -/
theorem lookupId_removeId {Cfg : Type} (m : List (List Char × VersionRecord Cfg))
    (id : List Char) : lookupId (removeId m id) id = none := by
  simp only [lookupId, Option.map_eq_none']
  refine List.find?_eq_none.mpr (fun p hp => ?_)
  have := (List.mem_filter.mp hp).2
  simpa using this

/-- C1: every mutating operation of the Version Store first re-fetches
the latest remote state (version tag and content), then mutates the
in-memory mapping, and then writes back using exactly the version tag
obtained by that fetch and the mapping produced by the mutation, in
that order.  (`id1` must exist for `updateVersion` to reach its write.) -/
theorem mutating_ops_fetch_then_write {Cfg : Type} (env : VMEnv Cfg) (st : VMState Cfg)
    (name id1 id2 : List Char)
    (f : Option (List Char × List (List Char × VersionRecord Cfg)))
    (htok : env.token ≠ [])
    (hget : getFileFromGitHub env.getResp = .ok f)
    (hput : env.putResp.ok = true)
    (hid : lookupId (fetchedVersions f) id1 ≠ none) :
    (∃ sha vs nv, (saveVersion env st name).trace =
      [VMEvent.fetchLatest sha vs, VMEvent.mutate nv, VMEvent.put sha nv,
        VMEvent.cacheWrite nv]) ∧
    (∃ sha vs nv, (updateVersion env st id1).trace =
      [VMEvent.fetchLatest sha vs, VMEvent.mutate nv, VMEvent.put sha nv,
        VMEvent.cacheWrite nv]) ∧
    (∃ sha vs nv, (deleteVersion env st id2).trace =
      [VMEvent.fetchLatest sha vs, VMEvent.mutate nv, VMEvent.put sha nv,
        VMEvent.cacheWrite nv]) := by
  obtain ⟨v, hv⟩ := Option.ne_none_iff_exists'.mp hid
  refine ⟨⟨fetchedSha f, fetchedVersions f,
      setId (fetchedVersions f)
        (uniqueSlug (slugify name) ((fetchedVersions f).map (fun p => p.1)))
        ⟨name, uniqueSlug (slugify name) ((fetchedVersions f).map (fun p => p.1)),
          env.now, some env.now, env.currentConfig⟩, ?_⟩,
    ⟨fetchedSha f, fetchedVersions f,
      setId (fetchedVersions f) id1
        { v with config := env.currentConfig, updatedAt := some env.now }, ?_⟩,
    ⟨fetchedSha f, fetchedVersions f, removeId (fetchedVersions f) id2, ?_⟩⟩ <;>
    simp [saveVersion, updateVersion, deleteVersion, hget, htok, hv,
      saveFileToGitHub, hput]

/-- Witness for C1 at a concrete environment whose store holds one
record under id "a". -/
theorem mutating_ops_fetch_then_write_witness :
    (∃ sha vs nv, (saveVersion
        ⟨"t".toList, ⟨200, true, "s".toList, [("a".toList, ⟨"A".toList, "a".toList, 1, some 1, ()⟩)]⟩,
          ⟨201, true, [], none, none⟩, 5, ()⟩
        ⟨[], none, none⟩ "B".toList).trace =
      [VMEvent.fetchLatest sha vs, VMEvent.mutate nv, VMEvent.put sha nv,
        VMEvent.cacheWrite nv]) := by
  refine (mutating_ops_fetch_then_write
    ⟨"t".toList, ⟨200, true, "s".toList, [("a".toList, ⟨"A".toList, "a".toList, 1, some 1, ()⟩)]⟩,
      ⟨201, true, [], none, none⟩, 5, ()⟩
    ⟨[], none, none⟩ "B".toList "a".toList "a".toList
    (some ("s".toList, [("a".toList, ⟨"A".toList, "a".toList, 1, some 1, ()⟩)]))
    (by decide) rfl (by decide) (by decide)).1

/-- C7: delete is idempotent: when the id is absent after the
pre-mutation fetch, `deleteVersion` succeeds and leaves the mapping
exactly as fetched; when the id is present, it succeeds and the record
is removed. -/
theorem deleteVersion_idempotent {Cfg : Type} (env : VMEnv Cfg) (st : VMState Cfg)
    (id : List Char)
    (f : Option (List Char × List (List Char × VersionRecord Cfg)))
    (htok : env.token ≠ [])
    (hget : getFileFromGitHub env.getResp = .ok f)
    (hput : env.putResp.ok = true) :
    (lookupId (fetchedVersions f) id = none →
      (deleteVersion env st id).outcome = .ok () ∧
      (deleteVersion env st id).state.versions = fetchedVersions f) ∧
    (lookupId (fetchedVersions f) id ≠ none →
      (deleteVersion env st id).outcome = .ok () ∧
      (deleteVersion env st id).state.versions = removeId (fetchedVersions f) id ∧
      lookupId (deleteVersion env st id).state.versions id = none) := by
  constructor
  · intro habs
    constructor
    · simp [deleteVersion, hget, htok, saveFileToGitHub, hput]
    · have := removeId_of_lookup_none (fetchedVersions f) id habs
      simp [deleteVersion, hget, htok, saveFileToGitHub, hput, this]
  · intro hpres
    refine ⟨by simp [deleteVersion, hget, htok, saveFileToGitHub, hput], ?_, ?_⟩
    · simp [deleteVersion, hget, htok, saveFileToGitHub, hput]
    · have h2 : (deleteVersion env st id).state.versions = removeId (fetchedVersions f) id := by
        simp [deleteVersion, hget, htok, saveFileToGitHub, hput]
      rw [h2]
      exact lookupId_removeId (fetchedVersions f) id

/-- Witness for C7: deleting the unknown id "zz" from a store holding
only "a" succeeds and leaves the fetched mapping unchanged. -/
theorem deleteVersion_idempotent_witness :
    (deleteVersion
        ⟨"t".toList, ⟨200, true, "s".toList, [("a".toList, ⟨"A".toList, "a".toList, 1, some 1, ()⟩)]⟩,
          ⟨201, true, [], none, none⟩, 5, ()⟩
        ⟨[], none, none⟩ "zz".toList).outcome = .ok () ∧
    (deleteVersion
        ⟨"t".toList, ⟨200, true, "s".toList, [("a".toList, ⟨"A".toList, "a".toList, 1, some 1, ()⟩)]⟩,
          ⟨201, true, [], none, none⟩, 5, ()⟩
        ⟨[], none, none⟩ "zz".toList).state.versions =
      fetchedVersions (some ("s".toList, [("a".toList, ⟨"A".toList, "a".toList, 1, some 1, ()⟩)])) :=
  (deleteVersion_idempotent
    ⟨"t".toList, ⟨200, true, "s".toList, [("a".toList, ⟨"A".toList, "a".toList, 1, some 1, ()⟩)]⟩,
      ⟨201, true, [], none, none⟩, 5, ()⟩
    ⟨[], none, none⟩ "zz".toList
    (some ("s".toList, [("a".toList, ⟨"A".toList, "a".toList, 1, some 1, ()⟩)]))
    (by decide) rfl (by decide)).1 (by decide)

/-- A conditional rewrite map is the identity on a list none of whose
elements satisfy the condition. -/
theorem map_if_not {α : Type} (l : List α) (q : α → Prop) [DecidablePred q] (g : α → α)
    (h : ∀ a ∈ l, ¬ q a) : l.map (fun a => if q a then g a else a) = l := by
  induction l with
  | nil => rfl
  | cons x xs ih =>
    simp only [List.map_cons, if_neg (h x (List.mem_cons_self x xs))]
    rw [ih (fun a ha => h a (List.mem_cons_of_mem x ha))]

/-- C9: when the resizer receives a `grafer-resize` message whose
source is the content window of one of its embed iframes, that iframe's
displayed height becomes the reported height plus the variant's fixed
buffer (5px in `embed.js`, 0 in the second copy); iframes whose content
window is not the message source keep their height; messages matching
no iframe, messages with a different type and messages with no data
change nothing; and before any message arrives an iframe has the
variant's fixed default height (600px in `embed.js`, 400px in the
second copy). -/
theorem resizer_spec (e : MsgEvent) (d : MsgData) (frames : List EmbedIframe)
    (hd : e.data = some d) (ht : d.tag = "grafer-resize".toList) :
    (∀ w, (embedMkIframe w).height = 600) ∧
    (∀ w, (embedVariantMkIframe w).height = 400) ∧
    (∀ i : Nat, ∀ f, frames[i]? = some f → f.win = e.source →
      (embedHandleMessage e frames)[i]? = some ⟨f.win, d.height + 5⟩ ∧
      (embedVariantHandleMessage e frames)[i]? = some ⟨f.win, d.height⟩) ∧
    (∀ i : Nat, ∀ f, frames[i]? = some f → f.win ≠ e.source →
      (embedHandleMessage e frames)[i]? = some f ∧
      (embedVariantHandleMessage e frames)[i]? = some f) ∧
    ((∀ f ∈ frames, f.win ≠ e.source) →
      embedHandleMessage e frames = frames ∧
      embedVariantHandleMessage e frames = frames) ∧
    (∀ (e2 : MsgEvent) (fs : List EmbedIframe), e2.data = none →
      embedHandleMessage e2 fs = fs ∧ embedVariantHandleMessage e2 fs = fs) ∧
    (∀ (e2 : MsgEvent) (d2 : MsgData) (fs : List EmbedIframe), e2.data = some d2 →
      d2.tag ≠ "grafer-resize".toList →
      embedHandleMessage e2 fs = fs ∧ embedVariantHandleMessage e2 fs = fs) := by
  refine ⟨fun w => rfl, fun w => rfl, ?_, ?_, ?_, ?_, ?_⟩
  · intro i f hf hw
    constructor <;>
      simp [embedHandleMessage, embedVariantHandleMessage, hd, ht, List.getElem?_map, hf, hw]
  · intro i f hf hw
    constructor <;>
      simp [embedHandleMessage, embedVariantHandleMessage, hd, ht, List.getElem?_map, hf, hw]
  · intro hnone
    constructor
    · simp only [embedHandleMessage, hd, ht, if_pos]
      exact map_if_not frames (fun f => f.win = e.source) _ hnone
    · simp only [embedVariantHandleMessage, hd, ht, if_pos]
      exact map_if_not frames (fun f => f.win = e.source) _ hnone
  · intro e2 fs h2
    obtain ⟨src2, data2⟩ := e2
    simp only at h2
    subst h2
    exact ⟨rfl, rfl⟩
  · intro e2 d2 fs h2 ht2
    obtain ⟨src2, data2⟩ := e2
    simp only at h2
    subst h2
    constructor
    · simp only [embedHandleMessage]
      exact if_neg ht2
    · simp only [embedVariantHandleMessage]
      exact if_neg ht2

/-- Witness for C9: a 350px resize message from window 7 sets the
matching iframe to 355px in the `embed.js` variant and leaves the
non-matching iframe alone. -/
theorem resizer_spec_witness :
    (embedHandleMessage ⟨7, some ⟨"grafer-resize".toList, 350⟩⟩ [⟨7, 600⟩, ⟨8, 600⟩])[0]? =
      some ⟨7, 355⟩ ∧
    (embedHandleMessage ⟨7, some ⟨"grafer-resize".toList, 350⟩⟩ [⟨7, 600⟩, ⟨8, 600⟩])[1]? =
      some ⟨8, 600⟩ :=
  ⟨((resizer_spec ⟨7, some ⟨"grafer-resize".toList, 350⟩⟩ ⟨"grafer-resize".toList, 350⟩
      [⟨7, 600⟩, ⟨8, 600⟩] rfl rfl).2.2.1 0 ⟨7, 600⟩ rfl rfl).1,
    ((resizer_spec ⟨7, some ⟨"grafer-resize".toList, 350⟩⟩ ⟨"grafer-resize".toList, 350⟩
      [⟨7, 600⟩, ⟨8, 600⟩] rfl rfl).2.2.2.1 1 ⟨8, 600⟩ rfl (by decide)).1⟩

/-- C8: the recency listing returns all records of the mapping, in an
order where `updatedAt` (or `createdAt` when `updatedAt` is absent) is
non-increasing; in particular a two-record store whose second record is
strictly newer lists the newer record first. -/
theorem listSortedByRecency_spec {Cfg : Type} (m : List (List Char × VersionRecord Cfg))
    (ka kb : List Char) (ra rb : VersionRecord Cfg) (t1 t2 : Nat)
    (ha : ra.updatedAt = some t1) (hb : rb.updatedAt = some t2) (hlt : t1 < t2) :
    (listSortedByRecency m).Pairwise (fun a b => recencyKey b ≤ recencyKey a) ∧
    List.Perm (listSortedByRecency m) (m.map (fun p => p.2)) ∧
    listSortedByRecency [(ka, ra), (kb, rb)] = [rb, ra] := by
  have htrans : ∀ a b c : VersionRecord Cfg,
      decide (recencyKey b ≤ recencyKey a) = true →
      decide (recencyKey c ≤ recencyKey b) = true →
      decide (recencyKey c ≤ recencyKey a) = true := by
    intro a b c h1 h2
    simp only [decide_eq_true_eq] at h1 h2 ⊢
    omega
  have htotal : ∀ a b : VersionRecord Cfg,
      (decide (recencyKey b ≤ recencyKey a) || decide (recencyKey a ≤ recencyKey b)) = true := by
    intro a b
    simp only [Bool.or_eq_true, decide_eq_true_eq]
    omega
  have hsorted : ∀ m2 : List (List Char × VersionRecord Cfg),
      (listSortedByRecency m2).Pairwise (fun a b => recencyKey b ≤ recencyKey a) := by
    intro m2
    have h0 := List.sorted_mergeSort htrans htotal (m2.map (fun p => p.2))
    exact h0.imp (fun h => by simpa using h)
  have hperm : ∀ m2 : List (List Char × VersionRecord Cfg),
      List.Perm (listSortedByRecency m2) (m2.map (fun p => p.2)) :=
    fun m2 => List.mergeSort_perm _ _
  refine ⟨hsorted m, hperm m, ?_⟩
  have hkra : recencyKey ra = t1 := by simp [recencyKey, ha]
  have hkrb : recencyKey rb = t2 := by simp [recencyKey, hb]
  have hne : ra ≠ rb := by
    intro hc
    rw [hc] at hkra
    omega
  have hp2 := hsorted [(ka, ra), (kb, rb)]
  have hq2 := hperm [(ka, ra), (kb, rb)]
  simp only [List.map_cons, List.map_nil] at hq2
  generalize hgen : listSortedByRecency [(ka, ra), (kb, rb)] = out at hp2 hq2 ⊢
  have hlen : out.length = 2 := by rw [hq2.length_eq]; rfl
  rcases out with _ | ⟨x, _ | ⟨y, rest⟩⟩
  · simp at hlen
  · simp at hlen
  · have hrest : rest = [] := by
      simp only [List.length_cons] at hlen
      exact List.eq_nil_of_length_eq_zero (by omega)
    subst hrest
    have hx_mem : x ∈ [ra, rb] := hq2.mem_iff.mp (by simp)
    have hy_mem : y ∈ [ra, rb] := hq2.mem_iff.mp (by simp)
    have hrel : recencyKey y ≤ recencyKey x :=
      (List.pairwise_cons.mp hp2).1 y (by simp)
    simp only [List.mem_cons, List.not_mem_nil, or_false] at hx_mem hy_mem
    rcases hx_mem with hx | hx
    · rcases hy_mem with hy | hy
      · have hrb : rb ∈ [x, y] := hq2.mem_iff.mpr (by simp)
        simp only [List.mem_cons, List.not_mem_nil, or_false] at hrb
        rcases hrb with h | h
        · exact absurd (h.trans hx).symm hne
        · exact absurd (h.trans hy).symm hne
      · rw [hx, hy, hkra, hkrb] at hrel
        omega
    · rcases hy_mem with hy | hy
      · rw [hx, hy]
      · have hra : ra ∈ [x, y] := hq2.mem_iff.mpr (by simp)
        simp only [List.mem_cons, List.not_mem_nil, or_false] at hra
        rcases hra with h | h
        · exact absurd (h.trans hx) hne
        · exact absurd (h.trans hy) hne

/-- Witness for C8 at a concrete two-record store with t1 = 1 < 2 = t2. -/
theorem listSortedByRecency_spec_witness :
    listSortedByRecency
        [("a".toList, (⟨"X".toList, "a".toList, 0, some 1, ()⟩ : VersionRecord Unit)),
          ("b".toList, ⟨"Y".toList, "b".toList, 0, some 2, ()⟩)] =
      [⟨"Y".toList, "b".toList, 0, some 2, ()⟩, ⟨"X".toList, "a".toList, 0, some 1, ()⟩] :=
  (listSortedByRecency_spec [] "a".toList "b".toList
    ⟨"X".toList, "a".toList, 0, some 1, ()⟩ ⟨"Y".toList, "b".toList, 0, some 2, ()⟩
    1 2 rfl rfl (by omega)).2.2

/-- The search loop of `uniqueSlug` returns the first free candidate at
or after its starting index. -/
theorem uniqueSlugAux_spec (slug : List Char) (existing : List (List Char)) :
    ∀ i, ∃ k, i ≤ k ∧ uniqueSlugAux slug existing i = mkSlug slug k ∧
      mkSlug slug k ∉ existing ∧ ∀ j, i ≤ j → j < k → mkSlug slug j ∈ existing := by
  intro i
  induction i using uniqueSlugAux.induct slug existing with
  | case1 x hmem ih =>
    obtain ⟨k, hk1, hk2, hk3, hk4⟩ := ih
    refine ⟨k, by omega, ?_, hk3, ?_⟩
    · rw [uniqueSlugAux, if_pos hmem]
      exact hk2
    · intro j hj1 hj2
      rcases Nat.eq_or_lt_of_le hj1 with hj | hj
      · exact hj ▸ hmem
      · exact hk4 j hj hj2
  | case2 x hnot =>
    refine ⟨x, Nat.le_refl x, ?_, hnot, fun j hj1 hj2 => absurd (Nat.lt_of_le_of_lt hj1 hj2)
      (Nat.lt_irrefl x)⟩
    rw [uniqueSlugAux, if_neg hnot]

/-- C5: `uniqueSlug` is total (the loop terminates for every finite
`existingIds`) and returns an id not in `existingIds`: the candidate
itself when the candidate is free, and otherwise the first free
candidate-k for k = 2, 3, …. -/
theorem uniqueSlug_spec (slug : List Char) (existing : List (List Char)) :
    uniqueSlug slug existing ∉ existing ∧
    (slug ∉ existing → uniqueSlug slug existing = slug) ∧
    (slug ∈ existing → ∃ k, 2 ≤ k ∧ uniqueSlug slug existing = mkSlug slug k ∧
      mkSlug slug k ∉ existing ∧ ∀ j, 2 ≤ j → j < k → mkSlug slug j ∈ existing) := by
  by_cases hmem : slug ∈ existing
  · obtain ⟨k, hk1, hk2, hk3, hk4⟩ := uniqueSlugAux_spec slug existing 2
    refine ⟨?_, fun h => absurd hmem h, fun h0 => ⟨k, hk1, ?_, hk3, hk4⟩⟩
    · rw [uniqueSlug, if_pos hmem, hk2]
      exact hk3
    · rw [uniqueSlug, if_pos hmem]
      exact hk2
  · refine ⟨?_, fun h0 => by rw [uniqueSlug, if_neg hmem], fun h => absurd h hmem⟩
    rw [uniqueSlug, if_neg hmem]
    exact hmem

/-- Witness for C5: with "test" and "test-2" taken, `uniqueSlug` avoids
both; and on a store already holding "test" it picks "test-2". -/
theorem uniqueSlug_spec_witness :
    uniqueSlug "test".toList ["test".toList, "test-2".toList] ∉
      ["test".toList, "test-2".toList] ∧
    ("v".toList ∉ ["test".toList] → uniqueSlug "v".toList ["test".toList] = "v".toList) :=
  ⟨(uniqueSlug_spec "test".toList ["test".toList, "test-2".toList]).1,
    (uniqueSlug_spec "v".toList ["test".toList]).2.1⟩

/-- C6: `slugify` (a pure function: lowercase, transliterate the fixed
accent set, collapse non-alphanumeric runs to single hyphens, trim
boundary hyphens) maps "Mørk 16:9" to "mork-16-9", and `saveVersion`
with that name on an empty store (remote file absent, write accepted)
returns the id "mork-16-9". -/
theorem slugify_mork_scenario :
    slugify "Mørk 16:9".toList = "mork-16-9".toList ∧
    (saveVersion
        (⟨"t".toList, ⟨404, false, [], []⟩, ⟨201, true, [], none, none⟩, 0, ()⟩ : VMEnv Unit)
        ⟨[], none, none⟩ "Mørk 16:9".toList).outcome = .ok "mork-16-9".toList := by
  constructor
  · decide
  · rfl

/-- The `Char` validity invariant in `Nat` form: a code point is below
the surrogate range or above it and below 0x110000. -/
theorem char_toNat_valid (c : Char) :
    c.toNat < 0xD800 ∨ (0xDFFF < c.toNat ∧ c.toNat < 0x110000) := c.valid

/-- One step of `utf8Decode` on a stream whose head decodes to a
scalar. -/
theorem utf8Decode_cons_of_scalar {b0 n : Nat} {rest rest1 : List Nat}
    (h : utf8DecodeScalar b0 rest = some (n, rest1)) :
    utf8Decode (b0 :: rest) = (utf8Decode rest1).map (fun cs => Char.ofNat n :: cs) := by
  rw [utf8Decode]
  split
  · rename_i n' rest1' h'
    rw [h] at h'
    simp only [Option.some.injEq, Prod.mk.injEq] at h'
    obtain ⟨h1, h2⟩ := h'
    subst h1
    subst h2
    rfl
  · rename_i h'
    rw [h] at h'
    exact Option.noConfusion h'

/-- The UTF-8 encoding of any scalar value decodes back to exactly that
scalar, leaving the rest of the stream untouched. -/
theorem utf8DecodeScalar_encodeChar (c : Char) (bs : List Nat) :
    ∃ b0 rest, utf8EncodeChar c.toNat ++ bs = b0 :: rest ∧
      utf8DecodeScalar b0 rest = some (c.toNat, bs) := by
  have hv := char_toNat_valid c
  rcases Nat.lt_or_ge c.toNat 0x80 with h1 | h1
  · refine ⟨c.toNat, bs, ?_, ?_⟩
    · simp [utf8EncodeChar, if_pos h1]
    · simp only [utf8DecodeScalar, if_pos h1]
  · rcases Nat.lt_or_ge c.toNat 0x800 with h2 | h2
    · refine ⟨0xC0 + c.toNat / 64, (0x80 + c.toNat % 64) :: bs, ?_, ?_⟩
      · simp [utf8EncodeChar, if_neg (by omega : ¬ c.toNat < 0x80), if_pos h2]
      · simp only [utf8DecodeScalar, if_neg (by omega : ¬ 0xC0 + c.toNat / 64 < 0x80),
          if_neg (by omega : ¬ 0xC0 + c.toNat / 64 < 0xC0),
          if_pos (by omega : 0xC0 + c.toNat / 64 < 0xE0), utf8Dec2,
          if_pos (⟨by omega, by omega⟩ :
            0x80 ≤ 0x80 + c.toNat % 64 ∧ 0x80 + c.toNat % 64 < 0xC0),
          if_neg (by omega : ¬ (0xC0 + c.toNat / 64 - 0xC0) * 64 +
            (0x80 + c.toNat % 64 - 0x80) < 0x80),
          Option.some.injEq, Prod.mk.injEq]
        exact ⟨by omega, trivial⟩
    · rcases Nat.lt_or_ge c.toNat 0x10000 with h3 | h3
      · refine ⟨0xE0 + c.toNat / 4096,
          (0x80 + c.toNat / 64 % 64) :: (0x80 + c.toNat % 64) :: bs, ?_, ?_⟩
        · simp [utf8EncodeChar, if_neg (by omega : ¬ c.toNat < 0x80),
            if_neg (by omega : ¬ c.toNat < 0x800), if_pos h3]
        · have hsur : ¬(0xD800 ≤ (0xE0 + c.toNat / 4096 - 0xE0) * 4096 +
              (0x80 + c.toNat / 64 % 64 - 0x80) * 64 + (0x80 + c.toNat % 64 - 0x80) ∧
              (0xE0 + c.toNat / 4096 - 0xE0) * 4096 +
              (0x80 + c.toNat / 64 % 64 - 0x80) * 64 + (0x80 + c.toNat % 64 - 0x80) <
                0xE000) := by
            rcases hv with h | h
            · intro hc; omega
            · intro hc; omega
          simp only [utf8DecodeScalar, if_neg (by omega : ¬ 0xE0 + c.toNat / 4096 < 0x80),
            if_neg (by omega : ¬ 0xE0 + c.toNat / 4096 < 0xC0),
            if_neg (by omega : ¬ 0xE0 + c.toNat / 4096 < 0xE0),
            if_pos (by omega : 0xE0 + c.toNat / 4096 < 0xF0), utf8Dec3,
            if_pos (⟨⟨by omega, by omega⟩, ⟨by omega, by omega⟩⟩ :
              (0x80 ≤ 0x80 + c.toNat / 64 % 64 ∧ 0x80 + c.toNat / 64 % 64 < 0xC0) ∧
              (0x80 ≤ 0x80 + c.toNat % 64 ∧ 0x80 + c.toNat % 64 < 0xC0)),
            if_neg (by omega : ¬ (0xE0 + c.toNat / 4096 - 0xE0) * 4096 +
              (0x80 + c.toNat / 64 % 64 - 0x80) * 64 + (0x80 + c.toNat % 64 - 0x80) < 0x800),
            if_neg hsur, Option.some.injEq, Prod.mk.injEq]
          exact ⟨by omega, trivial⟩
      · have h4 : c.toNat < 0x110000 := by rcases hv with h | h <;> omega
        refine ⟨0xF0 + c.toNat / 262144,
          (0x80 + c.toNat / 4096 % 64) :: (0x80 + c.toNat / 64 % 64) ::
            (0x80 + c.toNat % 64) :: bs, ?_, ?_⟩
        · simp [utf8EncodeChar, if_neg (by omega : ¬ c.toNat < 0x80),
            if_neg (by omega : ¬ c.toNat < 0x800), if_neg (by omega : ¬ c.toNat < 0x10000)]
        · simp only [utf8DecodeScalar, if_neg (by omega : ¬ 0xF0 + c.toNat / 262144 < 0x80),
            if_neg (by omega : ¬ 0xF0 + c.toNat / 262144 < 0xC0),
            if_neg (by omega : ¬ 0xF0 + c.toNat / 262144 < 0xE0),
            if_neg (by omega : ¬ 0xF0 + c.toNat / 262144 < 0xF0),
            if_pos (by omega : 0xF0 + c.toNat / 262144 < 0xF8), utf8Dec4,
            if_pos (⟨⟨by omega, by omega⟩, ⟨by omega, by omega⟩, ⟨by omega, by omega⟩⟩ :
              (0x80 ≤ 0x80 + c.toNat / 4096 % 64 ∧ 0x80 + c.toNat / 4096 % 64 < 0xC0) ∧
              (0x80 ≤ 0x80 + c.toNat / 64 % 64 ∧ 0x80 + c.toNat / 64 % 64 < 0xC0) ∧
              (0x80 ≤ 0x80 + c.toNat % 64 ∧ 0x80 + c.toNat % 64 < 0xC0)),
            if_neg (by omega : ¬ (0xF0 + c.toNat / 262144 - 0xF0) * 262144 +
              (0x80 + c.toNat / 4096 % 64 - 0x80) * 4096 +
              (0x80 + c.toNat / 64 % 64 - 0x80) * 64 + (0x80 + c.toNat % 64 - 0x80) < 0x10000),
            if_pos (by omega : (0xF0 + c.toNat / 262144 - 0xF0) * 262144 +
              (0x80 + c.toNat / 4096 % 64 - 0x80) * 4096 +
              (0x80 + c.toNat / 64 % 64 - 0x80) * 64 + (0x80 + c.toNat % 64 - 0x80) <
                0x110000), Option.some.injEq, Prod.mk.injEq]
          exact ⟨by omega, trivial⟩

/-- UTF-8 decoding inverts UTF-8 encoding on every string. -/
theorem utf8Decode_utf8Encode (s : List Char) : utf8Decode (utf8Encode s) = some s := by
  induction s with
  | nil =>
    show utf8Decode [] = some []
    rw [utf8Decode]
  | cons c cs ih =>
    obtain ⟨b0, rest, heq, hs⟩ := utf8DecodeScalar_encodeChar c (utf8Encode cs)
    have h0 : utf8Encode (c :: cs) = b0 :: rest := by
      simp only [utf8Encode, List.flatMap_cons] at heq ⊢
      exact heq
    rw [h0, utf8Decode_cons_of_scalar hs, ih, Char.ofNat_toNat]
    rfl

/-- The sextet value of a base64 alphabet character recovers the
sextet. -/
theorem b64Val_b64Char : ∀ n, n < 64 → b64Val (b64Char n) = some n := by decide

/-- No base64 alphabet character is the padding character. -/
theorem b64Char_ne_pad {n : Nat} (h : n < 64) : b64Char n ≠ '=' := by
  intro he
  have h1 := b64Val_b64Char n h
  rw [he] at h1
  rw [show b64Val ('=') = none from by decide] at h1
  exact Option.noConfusion h1

/-- No base64 alphabet character is a newline. -/
theorem b64Char_ne_newline {n : Nat} (h : n < 64) : b64Char n ≠ '\n' := by
  intro he
  have h1 := b64Val_b64Char n h
  rw [he] at h1
  rw [show b64Val ('\n') = none from by decide] at h1
  exact Option.noConfusion h1

/-- The output of `btoa` never contains a newline. -/
theorem btoa_no_newline : ∀ bs : List Nat, (∀ b ∈ bs, b < 256) → ∀ c ∈ btoa bs, c ≠ '\n' := by
  intro bs
  induction bs using btoa.induct with
  | case1 =>
    intro h c hc
    cases hc
  | case2 a =>
    intro h c hc
    have ha : a < 256 := h a (by simp)
    simp only [btoa, List.mem_cons, List.not_mem_nil, or_false] at hc
    rcases hc with rfl | rfl | rfl | rfl
    · exact b64Char_ne_newline (by omega)
    · exact b64Char_ne_newline (by omega)
    · decide
    · decide
  | case3 a b =>
    intro h c hc
    have ha : a < 256 := h a (by simp)
    have hb : b < 256 := h b (by simp)
    simp only [btoa, List.mem_cons, List.not_mem_nil, or_false] at hc
    rcases hc with rfl | rfl | rfl | rfl
    · exact b64Char_ne_newline (by omega)
    · exact b64Char_ne_newline (by omega)
    · exact b64Char_ne_newline (by omega)
    · decide
  | case4 a b c rest ih =>
    intro h x hx
    have ha : a < 256 := h a (by simp)
    have hb : b < 256 := h b (by simp)
    have hc : c < 256 := h c (by simp)
    simp only [btoa, List.mem_cons] at hx
    rcases hx with rfl | rfl | rfl | rfl | hx
    · exact b64Char_ne_newline (by omega)
    · exact b64Char_ne_newline (by omega)
    · exact b64Char_ne_newline (by omega)
    · exact b64Char_ne_newline (by omega)
    · exact ih (fun y hy => h y (by simp [hy])) x hx

/-- The decoder `atob` inverts `btoa` on every byte sequence. -/
theorem atob_btoa : ∀ bs : List Nat, (∀ b ∈ bs, b < 256) → atob (btoa bs) = some bs := by
  intro bs
  induction bs using btoa.induct with
  | case1 =>
    intro h
    rfl
  | case2 a =>
    intro h
    have ha : a < 256 := h a (by simp)
    have hrec : a / 4 * 4 + a % 4 * 16 / 16 = a := by omega
    simp only [btoa, atob, b64Val_b64Char (a / 4) (by omega),
      b64Val_b64Char (a % 4 * 16) (by omega), hrec, and_self, ite_true]
  | case3 a b =>
    intro h
    have ha : a < 256 := h a (by simp)
    have hb : b < 256 := h b (by simp)
    have hrec1 : a / 4 * 4 + (a % 4 * 16 + b / 16) / 16 = a := by omega
    have hrec2 : (a % 4 * 16 + b / 16) % 16 * 16 + b % 16 * 4 / 4 = b := by omega
    simp only [btoa, atob, b64Val_b64Char (a / 4) (by omega),
      b64Val_b64Char (a % 4 * 16 + b / 16) (by omega),
      b64Val_b64Char (b % 16 * 4) (by omega),
      if_neg (b64Char_ne_pad (show b % 16 * 4 < 64 by omega)), hrec1, hrec2, and_self,
      ite_true]
  | case4 a b c rest ih =>
    intro h
    have ha : a < 256 := h a (by simp)
    have hb : b < 256 := h b (by simp)
    have hc : c < 256 := h c (by simp)
    have hrest : ∀ y ∈ rest, y < 256 := fun y hy => h y (by simp [hy])
    have hrec1 : a / 4 * 4 + (a % 4 * 16 + b / 16) / 16 = a := by omega
    have hrec2 : (a % 4 * 16 + b / 16) % 16 * 16 + (b % 16 * 4 + c / 64) / 4 = b := by omega
    have hrec3 : (b % 16 * 4 + c / 64) % 4 * 64 + c % 64 = c := by omega
    simp only [btoa, atob, b64Val_b64Char (a / 4) (by omega),
      b64Val_b64Char (a % 4 * 16 + b / 16) (by omega),
      b64Val_b64Char (b % 16 * 4 + c / 64) (by omega),
      b64Val_b64Char (c % 64) (by omega),
      if_neg (b64Char_ne_pad (show b % 16 * 4 + c / 64 < 64 by omega)),
      if_neg (b64Char_ne_pad (show c % 64 < 64 by omega)),
      ih hrest, hrec1, hrec2, hrec3, Option.map_some']

/-- Every byte of a UTF-8 encoding of a scalar value fits in one byte. -/
theorem utf8EncodeChar_lt {n : Nat} (h : n < 0x110000) : ∀ b ∈ utf8EncodeChar n, b < 256 := by
  intro b hb
  rcases Nat.lt_or_ge n 0x80 with h1 | h1
  · simp only [utf8EncodeChar, if_pos h1, List.mem_singleton] at hb
    omega
  · rcases Nat.lt_or_ge n 0x800 with h2 | h2
    · simp only [utf8EncodeChar, if_neg (by omega : ¬ n < 0x80), if_pos h2, List.mem_cons,
        List.not_mem_nil, or_false] at hb
      rcases hb with rfl | rfl <;> omega
    · rcases Nat.lt_or_ge n 0x10000 with h3 | h3
      · simp only [utf8EncodeChar, if_neg (by omega : ¬ n < 0x80),
          if_neg (by omega : ¬ n < 0x800), if_pos h3, List.mem_cons,
          List.not_mem_nil, or_false] at hb
        rcases hb with rfl | rfl | rfl <;> omega
      · simp only [utf8EncodeChar, if_neg (by omega : ¬ n < 0x80),
          if_neg (by omega : ¬ n < 0x800), if_neg (by omega : ¬ n < 0x10000), List.mem_cons,
          List.not_mem_nil, or_false] at hb
        rcases hb with rfl | rfl | rfl | rfl <;> omega

/-- Every byte of a UTF-8 encoded string fits in one byte. -/
theorem utf8Encode_lt (s : List Char) : ∀ b ∈ utf8Encode s, b < 256 := by
  intro b hb
  simp only [utf8Encode, List.mem_flatMap] at hb
  obtain ⟨c, hc, hbc⟩ := hb
  have hv := char_toNat_valid c
  exact utf8EncodeChar_lt (by omega) b hbc

/-- C4: for every Unicode string, decoding the encoding returns the
string exactly: `base64ToUtf8 (utf8ToBase64 s) = some s`, including for
strings with multi-byte characters (the statement quantifies over all
`List Char`, i.e. all sequences of Unicode scalar values). -/
theorem base64ToUtf8_utf8ToBase64 (s : List Char) :
    base64ToUtf8 (utf8ToBase64 s) = some s := by
  have hb := utf8Encode_lt s
  have hfilter : (btoa (utf8Encode s)).filter (fun c => c ≠ '\n') = btoa (utf8Encode s) :=
    List.filter_eq_self.mpr
      (fun c hc => by simpa using btoa_no_newline (utf8Encode s) hb c hc)
  simp only [base64ToUtf8, utf8ToBase64, hfilter, atob_btoa (utf8Encode s) hb,
    Option.some_bind]
  exact utf8Decode_utf8Encode s
